import Mathlib

/-!
# Schema registry and aggregator construction (`erigon-lib/state/aggregator2.go`)

A shallow embedding of the one source file of the package: the two schema
tables `Schema` and `StandaloneIISchema`, the two in-place mutators of
`Schema` (`init` with its debug flag and `EnableHistoricalCommitment`), and
the constructor `NewAggregator`.

The file refers to many identifiers that are declared in other files
(`kv.*` constants, `seg.*` constants, the accessor flags, the struct types).
They are gathered in the structure `Decls` and every definition takes a
`Decls` value as a parameter, so nothing below depends on what those
constants happen to be.
-/

namespace state

/-! ## Types declared outside the file -/

/-- The key type `kv.Domain` (an unsigned integer type in Go). -/
abbrev Domain := Nat

/-- The key type `kv.InvertedIdx` (an unsigned integer type in Go). -/
abbrev InvertedIdx := Nat

/-- The flag set `Accessors`: the file combines its constants with `|`. -/
abbrev Accessors := Nat

/-- The flag set `seg.FileCompression`: the file combines its constants with `|`. -/
abbrev FileCompression := Nat

/-- Configuration `iiCfg`, with the fields that the file assigns. A field that a
literal leaves out has Go's zero value (`0`, `""`, `false`, and `default` for
the struct `seg.Cfg`, whose declaration is elsewhere). -/
structure iiCfg (SegCfg : Type) where
  name : InvertedIdx
  filenameBase : String
  keysTable : String
  valuesTable : String
  withExistence : Bool
  compression : FileCompression
  compressorCfg : SegCfg

/-- Configuration `histCfg`, with the fields that the file assigns; it contains an `iiCfg`. -/
structure histCfg (SegCfg : Type) where
  iiCfg : iiCfg SegCfg
  valuesTable : String
  compression : FileCompression
  historyLargeValues : Bool
  snapshotsDisabled : Bool
  historyDisabled : Bool
  filenameBase : String
  historyIdx : InvertedIdx

/-- Configuration `domainCfg`, with the fields that the file assigns; it contains a
`histCfg`. The field `crossDomainIntegrity` is a function value, `none` being Go's `nil`. -/
structure domainCfg (SegCfg Checker : Type) where
  hist : histCfg SegCfg
  name : Domain
  Compression : FileCompression
  CompressCfg : SegCfg
  AccessorList : Accessors
  valuesTable : String
  largeValues : Bool
  crossDomainIntegrity : Option Checker
  replaceKeysInValues : Bool

/-- Go's zero value of `iiCfg`. -/
def iiCfg.zero {SegCfg : Type} [Inhabited SegCfg] : iiCfg SegCfg :=
  { name := 0, filenameBase := "", keysTable := "", valuesTable := "",
    withExistence := false, compression := 0, compressorCfg := default }

/-- Go's zero value of `histCfg`. -/
def histCfg.zero {SegCfg : Type} [Inhabited SegCfg] : histCfg SegCfg :=
  { iiCfg := iiCfg.zero, valuesTable := "", compression := 0,
    historyLargeValues := false, snapshotsDisabled := false, historyDisabled := false,
    filenameBase := "", historyIdx := 0 }

/-- Go's zero value of `domainCfg`. -/
def domainCfg.zero {SegCfg Checker : Type} [Inhabited SegCfg] : domainCfg SegCfg Checker :=
  { hist := histCfg.zero, name := 0, Compression := 0, CompressCfg := default,
    AccessorList := 0, valuesTable := "", largeValues := false,
    crossDomainIntegrity := none, replaceKeysInValues := false }

/-- The identifiers the file uses and does not declare. `SegCfg` stands for the struct
`seg.Cfg` and `Checker` for the function type of `crossDomainIntegrity`. The three accessor
constants are flags of one flag set, so each is given by the position of its bit. -/
structure Decls (SegCfg Checker : Type) where
  -- kv.Domain constants
  AccountsDomain : Domain
  StorageDomain : Domain
  CodeDomain : Domain
  CommitmentDomain : Domain
  ReceiptDomain : Domain
  /-- The method `kv.Domain.String`. -/
  DomainString : Domain → String
  -- kv.InvertedIdx constants
  AccountsHistoryIdx : InvertedIdx
  StorageHistoryIdx : InvertedIdx
  CodeHistoryIdx : InvertedIdx
  CommitmentHistoryIdx : InvertedIdx
  ReceiptHistoryIdx : InvertedIdx
  LogAddrIdx : InvertedIdx
  LogTopicIdx : InvertedIdx
  TracesFromIdx : InvertedIdx
  TracesToIdx : InvertedIdx
  -- kv table names
  TblAccountVals : String
  TblAccountHistoryVals : String
  TblAccountHistoryKeys : String
  TblAccountIdx : String
  TblStorageVals : String
  TblStorageHistoryVals : String
  TblStorageHistoryKeys : String
  TblStorageIdx : String
  TblCodeVals : String
  TblCodeHistoryVals : String
  TblCodeHistoryKeys : String
  TblCodeIdx : String
  TblCommitmentVals : String
  TblCommitmentHistoryVals : String
  TblCommitmentHistoryKeys : String
  TblCommitmentIdx : String
  TblReceiptVals : String
  TblReceiptHistoryVals : String
  TblReceiptHistoryKeys : String
  TblReceiptIdx : String
  TblLogAddressKeys : String
  TblLogAddressIdx : String
  TblLogTopicsKeys : String
  TblLogTopicsIdx : String
  TblTracesFromKeys : String
  TblTracesFromIdx : String
  TblTracesToKeys : String
  TblTracesToIdx : String
  -- kv file names of the standalone indices
  FileLogAddressIdx : String
  FileLogTopicsIdx : String
  FileTracesFromIdx : String
  FileTracesToIdx : String
  -- bit positions of the accessor flags
  btreeBit : Nat
  hashMapBit : Nat
  existenceBit : Nat
  -- seg constants
  CompressNone : FileCompression
  CompressKeys : FileCompression
  CompressVals : FileCompression
  DefaultCfg : SegCfg
  -- package-level values of package state declared in other files
  DomainCompressCfg : SegCfg
  domainIntegrityCheck : Checker
  AggregatorSqueezeCommitmentValues : Bool

section
variable {SegCfg Checker : Type}

/-- Modelled from the spec: the constant `AccessorBTree` is declared outside the file; the
spec describes a capability set over ordered index, hash index and existence filter, so
the constant is one flag bit (the ordered-tree index), at a position left as a parameter. -/
def AccessorBTree (K : Decls SegCfg Checker) : Accessors := 2 ^ K.btreeBit

/-- Modelled from the spec: the constant `AccessorHashMap` is declared outside the file; it
is one flag bit of the capability set (the hash index), at a position left as a parameter. -/
def AccessorHashMap (K : Decls SegCfg Checker) : Accessors := 2 ^ K.hashMapBit

/-- Modelled from the spec: the constant `AccessorExistence` is declared outside the file;
it is one flag bit of the capability set (the existence filter), at a position left as a
parameter. -/
def AccessorExistence (K : Decls SegCfg Checker) : Accessors := 2 ^ K.existenceBit

/-- Modelled from the spec: the method `Accessors.Has` is declared outside the file; the spec
calls an accessor list a capability set, so a capability is present when its flag
intersects the list. -/
def Accessors.Has (l target : Accessors) : Bool := (l &&& target) != 0

/-- The keys of the `Schema` literal, in the order written. -/
def Decls.domainKeys (K : Decls SegCfg Checker) : List Domain :=
  [K.AccountsDomain, K.StorageDomain, K.CodeDomain, K.CommitmentDomain, K.ReceiptDomain]

/-- The keys of the `StandaloneIISchema` literal, in the order written. -/
def Decls.iiKeys (K : Decls SegCfg Checker) : List InvertedIdx :=
  [K.LogAddrIdx, K.LogTopicIdx, K.TracesFromIdx, K.TracesToIdx]

/-- The constants name different things: the keys of one map literal are pairwise
distinct (the Go compiler rejects a literal with a duplicate constant key), and the three
accessor flags are three different bits. -/
def Decls.Distinct (K : Decls SegCfg Checker) : Prop :=
  K.domainKeys.Nodup ∧ K.iiKeys.Nodup ∧ [K.btreeBit, K.hashMapBit, K.existenceBit].Nodup

instance (K : Decls SegCfg Checker) : Decidable K.Distinct :=
  inferInstanceAs
    (Decidable (K.domainKeys.Nodup ∧ K.iiKeys.Nodup ∧
      [K.btreeBit, K.hashMapBit, K.existenceBit].Nodup))

/-! ## Go maps -/

/-- A (non-nil) Go map: a key is absent (`none`) or bound to a value. -/
abbrev GoMap (κ V : Type) := κ → Option V

/-- The empty map. -/
def GoMap.empty {κ V : Type} : GoMap κ V := fun _ => none

/-- The read `m[k]`: the value bound to `k`, or the zero value when `k` is absent. -/
def GoMap.get {κ V : Type} (m : GoMap κ V) (k : κ) (zero : V) : V := (m k).getD zero

/-- The write `m[k] = v`. -/
def GoMap.set {κ V : Type} [DecidableEq κ] (m : GoMap κ V) (k : κ) (v : V) : GoMap κ V :=
  fun x => if x = k then some v else m x

/-- The key `k` is bound in `m`. -/
def GoMap.hasKey {κ V : Type} (m : GoMap κ V) (k : κ) : Bool := (m k).isSome

/-- The type of the package variable `Schema`. -/
abbrev SchemaTable (SegCfg Checker : Type) := GoMap Domain (domainCfg SegCfg Checker)

/-- The type of the package variable `StandaloneIISchema`. -/
abbrev IISchemaTable (SegCfg : Type) := GoMap InvertedIdx (iiCfg SegCfg)

/-! ## The tables as written -/

variable [Inhabited SegCfg]

/-- The entry `Schema[kv.AccountsDomain]` of the literal. -/
def accountsCfg (K : Decls SegCfg Checker) : domainCfg SegCfg Checker :=
  { (domainCfg.zero : domainCfg SegCfg Checker) with
    name := K.AccountsDomain, valuesTable := K.TblAccountVals
    AccessorList := AccessorBTree K ||| AccessorExistence K
    crossDomainIntegrity := some K.domainIntegrityCheck
    Compression := K.CompressNone
    CompressCfg := K.DomainCompressCfg
    hist :=
      { (histCfg.zero : histCfg SegCfg) with
        valuesTable := K.TblAccountHistoryVals
        compression := K.CompressNone
        historyLargeValues := false
        filenameBase := K.DomainString K.AccountsDomain
        historyIdx := K.AccountsHistoryIdx
        iiCfg :=
          { (iiCfg.zero : iiCfg SegCfg) with
            keysTable := K.TblAccountHistoryKeys, valuesTable := K.TblAccountIdx
            withExistence := false, compressorCfg := K.DefaultCfg
            filenameBase := K.DomainString K.AccountsDomain } } }

/-- The entry `Schema[kv.StorageDomain]` of the literal. -/
def storageCfg (K : Decls SegCfg Checker) : domainCfg SegCfg Checker :=
  { (domainCfg.zero : domainCfg SegCfg Checker) with
    name := K.StorageDomain, valuesTable := K.TblStorageVals
    AccessorList := AccessorBTree K ||| AccessorExistence K
    Compression := K.CompressKeys
    CompressCfg := K.DomainCompressCfg
    hist :=
      { (histCfg.zero : histCfg SegCfg) with
        valuesTable := K.TblStorageHistoryVals
        compression := K.CompressNone
        historyLargeValues := false
        filenameBase := K.DomainString K.StorageDomain
        historyIdx := K.StorageHistoryIdx
        iiCfg :=
          { (iiCfg.zero : iiCfg SegCfg) with
            keysTable := K.TblStorageHistoryKeys, valuesTable := K.TblStorageIdx
            withExistence := false, compressorCfg := K.DefaultCfg
            filenameBase := K.DomainString K.StorageDomain } } }

/-- The entry `Schema[kv.CodeDomain]` of the literal. -/
def codeCfg (K : Decls SegCfg Checker) : domainCfg SegCfg Checker :=
  { (domainCfg.zero : domainCfg SegCfg Checker) with
    name := K.CodeDomain, valuesTable := K.TblCodeVals
    AccessorList := AccessorBTree K ||| AccessorExistence K
    Compression := K.CompressVals
    CompressCfg := K.DomainCompressCfg
    largeValues := true
    hist :=
      { (histCfg.zero : histCfg SegCfg) with
        valuesTable := K.TblCodeHistoryVals
        compression := K.CompressKeys ||| K.CompressVals
        historyLargeValues := true
        filenameBase := K.DomainString K.CodeDomain
        historyIdx := K.CodeHistoryIdx
        iiCfg :=
          { (iiCfg.zero : iiCfg SegCfg) with
            withExistence := false, compressorCfg := K.DefaultCfg
            keysTable := K.TblCodeHistoryKeys, valuesTable := K.TblCodeIdx
            filenameBase := K.DomainString K.CodeDomain } } }

/-- The entry `Schema[kv.CommitmentDomain]` of the literal. -/
def commitmentCfg (K : Decls SegCfg Checker) : domainCfg SegCfg Checker :=
  { (domainCfg.zero : domainCfg SegCfg Checker) with
    name := K.CommitmentDomain, valuesTable := K.TblCommitmentVals
    AccessorList := AccessorHashMap K
    Compression := K.CompressKeys
    CompressCfg := K.DomainCompressCfg
    replaceKeysInValues := K.AggregatorSqueezeCommitmentValues
    hist :=
      { (histCfg.zero : histCfg SegCfg) with
        valuesTable := K.TblCommitmentHistoryVals
        compression := K.CompressNone
        snapshotsDisabled := true
        historyLargeValues := false
        filenameBase := K.DomainString K.CommitmentDomain
        historyIdx := K.CommitmentHistoryIdx
        historyDisabled := true
        iiCfg :=
          { (iiCfg.zero : iiCfg SegCfg) with
            keysTable := K.TblCommitmentHistoryKeys, valuesTable := K.TblCommitmentIdx
            withExistence := false, compressorCfg := K.DefaultCfg
            filenameBase := K.DomainString K.CommitmentDomain } } }

/-- The entry `Schema[kv.ReceiptDomain]` of the literal. -/
def receiptCfg (K : Decls SegCfg Checker) : domainCfg SegCfg Checker :=
  { (domainCfg.zero : domainCfg SegCfg Checker) with
    name := K.ReceiptDomain, valuesTable := K.TblReceiptVals
    AccessorList := AccessorBTree K ||| AccessorExistence K
    Compression := K.CompressNone
    CompressCfg := K.DomainCompressCfg
    hist :=
      { (histCfg.zero : histCfg SegCfg) with
        valuesTable := K.TblReceiptHistoryVals
        compression := K.CompressNone
        historyLargeValues := false
        filenameBase := K.DomainString K.ReceiptDomain
        historyIdx := K.ReceiptHistoryIdx
        iiCfg :=
          { (iiCfg.zero : iiCfg SegCfg) with
            keysTable := K.TblReceiptHistoryKeys, valuesTable := K.TblReceiptIdx
            withExistence := false, compressorCfg := K.DefaultCfg
            filenameBase := K.DomainString K.ReceiptDomain } } }

/-- The package variable `Schema` as its literal gives it: the five entries bound in the
order written. -/
def Schema (K : Decls SegCfg Checker) : SchemaTable SegCfg Checker :=
  ((((GoMap.empty.set K.AccountsDomain (accountsCfg K)).set
    K.StorageDomain (storageCfg K)).set
    K.CodeDomain (codeCfg K)).set
    K.CommitmentDomain (commitmentCfg K)).set
    K.ReceiptDomain (receiptCfg K)

/-- The package variable `StandaloneIISchema` as its literal gives it. -/
def StandaloneIISchema (K : Decls SegCfg Checker) : IISchemaTable SegCfg :=
  (((GoMap.empty.set K.LogAddrIdx
      { (iiCfg.zero : iiCfg SegCfg) with
        filenameBase := K.FileLogAddressIdx, keysTable := K.TblLogAddressKeys
        valuesTable := K.TblLogAddressIdx
        compression := K.CompressNone
        name := K.LogAddrIdx }).set K.LogTopicIdx
      { (iiCfg.zero : iiCfg SegCfg) with
        filenameBase := K.FileLogTopicsIdx, keysTable := K.TblLogTopicsKeys
        valuesTable := K.TblLogTopicsIdx
        compression := K.CompressNone
        name := K.LogTopicIdx }).set K.TracesFromIdx
      { (iiCfg.zero : iiCfg SegCfg) with
        filenameBase := K.FileTracesFromIdx, keysTable := K.TblTracesFromKeys
        valuesTable := K.TblTracesFromIdx
        compression := K.CompressNone
        name := K.TracesFromIdx }).set K.TracesToIdx
      { (iiCfg.zero : iiCfg SegCfg) with
        filenameBase := K.FileTracesToIdx, keysTable := K.TblTracesToKeys
        valuesTable := K.TblTracesToIdx
        compression := K.CompressNone
        name := K.TracesToIdx }

/-! ## The package variables and the two mutators of `Schema` -/

/-- The package-level variables that the file declares. -/
structure Globals (SegCfg Checker : Type) where
  dbgCommBtIndex : Bool
  Schema : SchemaTable SegCfg Checker
  StandaloneIISchema : IISchemaTable SegCfg

/-- The package variables once their initialisers have run and before `init` runs:
`envBool` is what `dbg.EnvBool("AGG_COMMITMENT_BT", false)` returned (`false` unless the
environment sets the flag), the two tables are their literals. -/
def packageVars (K : Decls SegCfg Checker) (envBool : Bool) : Globals SegCfg Checker :=
  { dbgCommBtIndex := envBool, Schema := Schema K, StandaloneIISchema := StandaloneIISchema K }

/-- The function `init`, from the package variables before the call to those after it. -/
def init (K : Decls SegCfg Checker) (g : Globals SegCfg Checker) : Globals SegCfg Checker :=
  if g.dbgCommBtIndex then
    let cfg := g.Schema.get K.CommitmentDomain domainCfg.zero
    let cfg := { cfg with AccessorList := AccessorBTree K ||| AccessorExistence K }
    { g with Schema := g.Schema.set K.CommitmentDomain cfg }
  else g

/-- The function `EnableHistoricalCommitment`, from the package variables before the call
to those after it. -/
def EnableHistoricalCommitment (K : Decls SegCfg Checker)
    (g : Globals SegCfg Checker) : Globals SegCfg Checker :=
  let cfg := g.Schema.get K.CommitmentDomain domainCfg.zero
  let cfg := { cfg with hist := { cfg.hist with historyDisabled := false } }
  let cfg := { cfg with hist := { cfg.hist with snapshotsDisabled := false } }
  { g with Schema := g.Schema.set K.CommitmentDomain cfg }

/-- One of the two mutators of `Schema`. -/
inductive Mutator where
  | init
  | EnableHistoricalCommitment

/-- Run one mutator. -/
def Mutator.run (K : Decls SegCfg Checker) :
    Mutator → Globals SegCfg Checker → Globals SegCfg Checker
  | .init => state.init K
  | .EnableHistoricalCommitment => state.EnableHistoricalCommitment K

/-- Run a sequence of mutators, first to last. -/
def runMutators (K : Decls SegCfg Checker) (ms : List Mutator)
    (g : Globals SegCfg Checker) : Globals SegCfg Checker :=
  ms.foldl (fun acc m => m.run K acc) g

/-- Well-formedness of the two tables: an entry of `Schema` carries its own key as `name`,
its history layer and its inverted-index layer use the string of the key as filename base,
and the inverted-index layer has no existence filter; an entry of `StandaloneIISchema`
carries its own key as `name` and is not compressed. -/
def WellFormed (K : Decls SegCfg Checker) (g : Globals SegCfg Checker) : Prop :=
  (∀ d cfg, g.Schema d = some cfg →
    cfg.name = d ∧ cfg.hist.filenameBase = cfg.hist.iiCfg.filenameBase ∧
    cfg.hist.filenameBase = K.DomainString d ∧ cfg.hist.iiCfg.filenameBase = K.DomainString d ∧
    cfg.hist.iiCfg.withExistence = false) ∧
  (∀ i c, g.StandaloneIISchema i = some c → c.name = i ∧ c.compression = K.CompressNone)

end

/-! ## The constructor `NewAggregator` -/

section
variable {SegCfg Checker σ A Salt E : Type}

/-- The functions and methods that `NewAggregator` calls and that are declared in other
files. `σ` is the state they work on (the file system, the aggregator behind the pointer,
everything they read or write), `A` is the pointer type `*Aggregator`, `Salt` the type of
the salt and `E` the type of non-nil errors. The arguments `ctx`, `dirs`,
`aggregationStep`, `db` and `logger` of `NewAggregator` are handed on as they are and
belong to the callee here. A function returning `(value, error)` gives `Except` (with a nil
error the value is the one used, for `newAggregatorOld` a non-nil pointer), a method
returning `error` gives `Option` (`none` is `nil`). -/
structure Callees (σ A Salt E : Type) where
  getStateIndicesSalt : σ → σ × Except E Salt
  newAggregatorOld : σ → σ × Except E A
  registerDomain : A → Domain → Salt → σ → σ × Option E
  registerII : A → InvertedIdx → Salt → σ → σ × Option E
  KeepRecentTxnsOfHistoriesWithDisabledSnapshots : A → Nat → σ → σ
  dirtyFilesEndTxNumMinimax : A → σ → σ × Nat
  recalcVisibleFiles : A → Nat → σ → σ

/-- What `NewAggregator` does, one event per call it makes, with the arguments it passes
and the error or value it gets back. `Lock` and `Unlock` are the calls on
`a.dirtyFilesLock`. -/
inductive Event (Salt E : Type) where
  | getStateIndicesSalt (err : Option E)
  | newAggregatorOld (err : Option E)
  | registerDomain (name : Domain) (salt : Salt) (err : Option E)
  | registerII (idx : InvertedIdx) (salt : Salt) (err : Option E)
  | KeepRecentTxnsOfHistoriesWithDisabledSnapshots (recentTxs : Nat)
  | Lock
  | dirtyFilesEndTxNumMinimax (ret : Nat)
  | recalcVisibleFiles (toTxNum : Nat)
  | Unlock

/-- The error a call returned, if it is a call that can fail and did. -/
def Event.err : Event Salt E → Option E
  | .getStateIndicesSalt err => err
  | .newAggregatorOld err => err
  | .registerDomain _ _ err => err
  | .registerII _ _ err => err
  | _ => none

/-- The call without its salt and without what it returned. -/
inductive Call where
  | getStateIndicesSalt
  | newAggregatorOld
  | registerDomain (name : Domain)
  | registerII (idx : InvertedIdx)
  | KeepRecentTxnsOfHistoriesWithDisabledSnapshots (recentTxs : Nat)
  | Lock
  | dirtyFilesEndTxNumMinimax
  | recalcVisibleFiles
  | Unlock
  deriving DecidableEq

/-- The call of an event. -/
def Event.call : Event Salt E → Call
  | .getStateIndicesSalt _ => .getStateIndicesSalt
  | .newAggregatorOld _ => .newAggregatorOld
  | .registerDomain d _ _ => .registerDomain d
  | .registerII i _ _ => .registerII i
  | .KeepRecentTxnsOfHistoriesWithDisabledSnapshots n =>
    .KeepRecentTxnsOfHistoriesWithDisabledSnapshots n
  | .Lock => .Lock
  | .dirtyFilesEndTxNumMinimax _ => .dirtyFilesEndTxNumMinimax
  | .recalcVisibleFiles _ => .recalcVisibleFiles
  | .Unlock => .Unlock

/-- A call of the fallible first part of `NewAggregator`: the salt, the base aggregator,
a registration. -/
def Call.isSetup : Call → Bool
  | .getStateIndicesSalt => true
  | .newAggregatorOld => true
  | .registerDomain _ => true
  | .registerII _ => true
  | _ => false

/-- A call of `registerDomain` or of `registerII`. -/
def Call.isRegistration : Call → Bool
  | .registerDomain _ => true
  | .registerII _ => true
  | _ => false

/-- The result of a run of `NewAggregator`: the state it leaves, the calls it made in
order, and what it returns, `.error err` for `(nil, err)` and `.ok a` for `(a, nil)`. -/
structure Outcome (σ A Salt E : Type) where
  world : σ
  trace : List (Event Salt E)
  ret : Except E A

/-- The function `NewAggregator`, statement by statement, from the state `w` it starts in. -/
def NewAggregator (K : Decls SegCfg Checker) (c : Callees σ A Salt E) (w : σ) :
    Outcome σ A Salt E :=
  match c.getStateIndicesSalt w with
  | (w, .error err) => ⟨w, [.getStateIndicesSalt (some err)], .error err⟩
  | (w, .ok salt) =>
  let t := [Event.getStateIndicesSalt none]
  match c.newAggregatorOld w with
  | (w, .error err) => ⟨w, t ++ [.newAggregatorOld (some err)], .error err⟩
  | (w, .ok a) =>
  let t := t ++ [Event.newAggregatorOld none]
  match c.registerDomain a K.AccountsDomain salt w with
  | (w, some err) => ⟨w, t ++ [.registerDomain K.AccountsDomain salt (some err)], .error err⟩
  | (w, none) =>
  let t := t ++ [Event.registerDomain K.AccountsDomain salt none]
  match c.registerDomain a K.StorageDomain salt w with
  | (w, some err) => ⟨w, t ++ [.registerDomain K.StorageDomain salt (some err)], .error err⟩
  | (w, none) =>
  let t := t ++ [Event.registerDomain K.StorageDomain salt none]
  match c.registerDomain a K.CodeDomain salt w with
  | (w, some err) => ⟨w, t ++ [.registerDomain K.CodeDomain salt (some err)], .error err⟩
  | (w, none) =>
  let t := t ++ [Event.registerDomain K.CodeDomain salt none]
  match c.registerDomain a K.CommitmentDomain salt w with
  | (w, some err) =>
    ⟨w, t ++ [.registerDomain K.CommitmentDomain salt (some err)], .error err⟩
  | (w, none) =>
  let t := t ++ [Event.registerDomain K.CommitmentDomain salt none]
  match c.registerDomain a K.ReceiptDomain salt w with
  | (w, some err) => ⟨w, t ++ [.registerDomain K.ReceiptDomain salt (some err)], .error err⟩
  | (w, none) =>
  let t := t ++ [Event.registerDomain K.ReceiptDomain salt none]
  match c.registerII a K.LogAddrIdx salt w with
  | (w, some err) => ⟨w, t ++ [.registerII K.LogAddrIdx salt (some err)], .error err⟩
  | (w, none) =>
  let t := t ++ [Event.registerII K.LogAddrIdx salt none]
  match c.registerII a K.LogTopicIdx salt w with
  | (w, some err) => ⟨w, t ++ [.registerII K.LogTopicIdx salt (some err)], .error err⟩
  | (w, none) =>
  let t := t ++ [Event.registerII K.LogTopicIdx salt none]
  match c.registerII a K.TracesFromIdx salt w with
  | (w, some err) => ⟨w, t ++ [.registerII K.TracesFromIdx salt (some err)], .error err⟩
  | (w, none) =>
  let t := t ++ [Event.registerII K.TracesFromIdx salt none]
  match c.registerII a K.TracesToIdx salt w with
  | (w, some err) => ⟨w, t ++ [.registerII K.TracesToIdx salt (some err)], .error err⟩
  | (w, none) =>
  let t := t ++ [Event.registerII K.TracesToIdx salt none]
  let w := c.KeepRecentTxnsOfHistoriesWithDisabledSnapshots a 100000 w
  let t := t ++ [Event.KeepRecentTxnsOfHistoriesWithDisabledSnapshots 100000]
  let t := t ++ [Event.Lock]
  -- the argument of the call is evaluated first, then the call is made
  let m := c.dirtyFilesEndTxNumMinimax a w
  let t := t ++ [Event.dirtyFilesEndTxNumMinimax m.2]
  let w := c.recalcVisibleFiles a m.2 m.1
  let t := t ++ [Event.recalcVisibleFiles m.2]
  -- the deferred `Unlock` runs when the function returns
  let t := t ++ [Event.Unlock]
  ⟨w, t, .ok a⟩

/-- The calls of a complete run of `NewAggregator`, in the order of the source. -/
def plan (K : Decls SegCfg Checker) : List Call :=
  [.getStateIndicesSalt, .newAggregatorOld,
   .registerDomain K.AccountsDomain, .registerDomain K.StorageDomain,
   .registerDomain K.CodeDomain, .registerDomain K.CommitmentDomain,
   .registerDomain K.ReceiptDomain,
   .registerII K.LogAddrIdx, .registerII K.LogTopicIdx,
   .registerII K.TracesFromIdx, .registerII K.TracesToIdx,
   .KeepRecentTxnsOfHistoriesWithDisabledSnapshots 100000,
   .Lock, .dirtyFilesEndTxNumMinimax, .recalcVisibleFiles, .Unlock]

/-- The state after the nine registrations made on the aggregator `a` with `salt`, from
the state `w` in which the base aggregator was built: the five domains, then the four
standalone indices. -/
def afterRegistrations (K : Decls SegCfg Checker) (c : Callees σ A Salt E) (a : A)
    (salt : Salt) (w : σ) : σ :=
  let w := K.domainKeys.foldl (fun w d => (c.registerDomain a d salt w).1) w
  K.iiKeys.foldl (fun w i => (c.registerII a i salt w).1) w

/-- One of the nine registration calls of `NewAggregator`. -/
inductive Reg where
  | domain (name : Domain)
  | ii (idx : InvertedIdx)

/-- The callee a registration applies, on the aggregator `a` with `salt`. -/
def Reg.apply (c : Callees σ A Salt E) (a : A) (salt : Salt) : Reg → σ → σ × Option E
  | .domain d => c.registerDomain a d salt
  | .ii i => c.registerII a i salt

/-- The event of a registration that returned `err`. -/
def Reg.event (salt : Salt) (err : Option E) : Reg → Event Salt E
  | .domain d => .registerDomain d salt err
  | .ii i => .registerII i salt err

/-- The nine registrations of `NewAggregator`, in the order of the source. -/
def registrations (K : Decls SegCfg Checker) : List Reg :=
  [.domain K.AccountsDomain, .domain K.StorageDomain, .domain K.CodeDomain,
   .domain K.CommitmentDomain, .domain K.ReceiptDomain,
   .ii K.LogAddrIdx, .ii K.LogTopicIdx, .ii K.TracesFromIdx, .ii K.TracesToIdx]

/-- Fail on the first failing step, in the words of the specification: apply the
registrations of a list in order, each to the state the one before left, and stop at the
first that returns an error. The result is the state left by the last callee applied, the
events of the callees applied, and the error of the one that failed (`none` when all of
them returned nil). -/
def registerUntilError (c : Callees σ A Salt E) (a : A) (salt : Salt) :
    List Reg → σ → σ × List (Event Salt E) × Option E
  | [], w => (w, [], none)
  | r :: rs, w =>
    match r.apply c a salt w with
    | (w, some err) => (w, [r.event salt (some err)], some err)
    | (w, none) =>
      let rest := registerUntilError c a salt rs w
      (rest.1, r.event salt none :: rest.2.1, rest.2.2)

/-- Every `recalcVisibleFiles` of a trace happens while the lock is held; `held` says
whether the lock is held where the trace starts. -/
def recalcUnderLock : Bool → List (Event Salt E) → Bool
  | _, [] => true
  | held, ev :: t =>
    match ev with
    | .Lock => recalcUnderLock true t
    | .Unlock => recalcUnderLock false t
    | .recalcVisibleFiles _ => held && recalcUnderLock held t
    | _ => recalcUnderLock held t

end

/-- Callees for a run on lists of numbers: the state is the list of keys registered so
far, a registration fails (with the key as the error) on a key of `failOn`, the minimax is
the number of registered keys, and `recalcVisibleFiles` puts its argument in front. -/
def exampleCallees (failOn : List Nat) : Callees (List Nat) Unit Nat Nat :=
  { getStateIndicesSalt := fun w => (w, .ok 7)
    newAggregatorOld := fun w => (w, .ok ())
    registerDomain := fun _ d _ w => if d ∈ failOn then (w, some d) else (w ++ [d], none)
    registerII := fun _ i _ w => if i ∈ failOn then (w, some i) else (w ++ [i], none)
    KeepRecentTxnsOfHistoriesWithDisabledSnapshots := fun _ _ w => w
    dirtyFilesEndTxNumMinimax := fun _ w => (w, w.length)
    recalcVisibleFiles := fun _ n w => n :: w }

/-! ## A concrete choice of the outside declarations -/

/-- One assignment of the outside identifiers, used to run the definitions. -/
def exampleDecls : Decls Unit Unit :=
  { AccountsDomain := 0, StorageDomain := 1, CodeDomain := 2, CommitmentDomain := 3,
    ReceiptDomain := 4
    DomainString := fun d =>
      if d = 0 then "accounts" else if d = 1 then "storage" else if d = 2 then "code"
      else if d = 3 then "commitment" else if d = 4 then "receipt" else "unknown"
    AccountsHistoryIdx := 0, StorageHistoryIdx := 1, CodeHistoryIdx := 2
    CommitmentHistoryIdx := 3, ReceiptHistoryIdx := 4
    LogAddrIdx := 5, LogTopicIdx := 6, TracesFromIdx := 7, TracesToIdx := 8
    TblAccountVals := "AccountVals", TblAccountHistoryVals := "AccountHistoryVals"
    TblAccountHistoryKeys := "AccountHistoryKeys", TblAccountIdx := "AccountIdx"
    TblStorageVals := "StorageVals", TblStorageHistoryVals := "StorageHistoryVals"
    TblStorageHistoryKeys := "StorageHistoryKeys", TblStorageIdx := "StorageIdx"
    TblCodeVals := "CodeVals", TblCodeHistoryVals := "CodeHistoryVals"
    TblCodeHistoryKeys := "CodeHistoryKeys", TblCodeIdx := "CodeIdx"
    TblCommitmentVals := "CommitmentVals", TblCommitmentHistoryVals := "CommitmentHistoryVals"
    TblCommitmentHistoryKeys := "CommitmentHistoryKeys", TblCommitmentIdx := "CommitmentIdx"
    TblReceiptVals := "ReceiptVals", TblReceiptHistoryVals := "ReceiptHistoryVals"
    TblReceiptHistoryKeys := "ReceiptHistoryKeys", TblReceiptIdx := "ReceiptIdx"
    TblLogAddressKeys := "LogAddressKeys", TblLogAddressIdx := "LogAddressIdx"
    TblLogTopicsKeys := "LogTopicsKeys", TblLogTopicsIdx := "LogTopicsIdx"
    TblTracesFromKeys := "TracesFromKeys", TblTracesFromIdx := "TracesFromIdx"
    TblTracesToKeys := "TracesToKeys", TblTracesToIdx := "TracesToIdx"
    FileLogAddressIdx := "logaddrs", FileLogTopicsIdx := "logtopics"
    FileTracesFromIdx := "tracesfrom", FileTracesToIdx := "tracesto"
    btreeBit := 0, hashMapBit := 1, existenceBit := 2
    CompressNone := 0, CompressKeys := 1, CompressVals := 2
    DefaultCfg := (), DomainCompressCfg := (), domainIntegrityCheck := ()
    AggregatorSqueezeCommitmentValues := true }

/-- Package variables whose `Schema` is the empty map `map[kv.Domain]domainCfg{}`. -/
def emptySchemaVars : Globals Unit Unit :=
  { dbgCommBtIndex := false, Schema := GoMap.empty, StandaloneIISchema := GoMap.empty }

/-! ## Lemmas on flags and on the tables -/

section
variable {SegCfg Checker : Type}

theorem GoMap.set_apply {κ V : Type} [DecidableEq κ] (m : GoMap κ V) (k x : κ) (v : V) :
    (m.set k v) x = if x = k then some v else m x := rfl

theorem Accessors.Has_two_pow (l i : Nat) : Accessors.Has l (2 ^ i) = l.testBit i := by
  unfold Accessors.Has
  cases h : l.testBit i
  · have h0 : l &&& 2 ^ i = 0 := by
      apply Nat.eq_of_testBit_eq
      intro j
      by_cases hij : i = j
      · subst hij; simp [h]
      · simp [Nat.testBit_two_pow_of_ne hij]
    simp [h0]
  · have h1 : (l &&& 2 ^ i).testBit i = true := by simp [h]
    have hne : l &&& 2 ^ i ≠ 0 := by
      intro h0
      rw [h0] at h1
      simp at h1
    simpa using hne

theorem Has_btree_or_existence (K : Decls SegCfg Checker) (hK : K.Distinct) :
    Accessors.Has (AccessorBTree K ||| AccessorExistence K) (AccessorBTree K) = true ∧
    Accessors.Has (AccessorBTree K ||| AccessorExistence K) (AccessorExistence K) = true ∧
    Accessors.Has (AccessorBTree K ||| AccessorExistence K) (AccessorHashMap K) = false := by
  obtain ⟨-, -, hb⟩ := hK
  simp only [List.nodup_cons, List.mem_cons, List.mem_singleton, not_or, List.not_mem_nil,
    not_false_eq_true, List.nodup_nil, and_true] at hb
  obtain ⟨⟨hbh, hbe⟩, hhe⟩ := hb
  simp only [AccessorBTree, AccessorExistence, AccessorHashMap, Accessors.Has_two_pow,
    Nat.testBit_or, Nat.testBit_two_pow]
  simp [hbh, hhe, Ne.symm hbe, Ne.symm hhe, Ne.symm hbh]

theorem Has_hashMap (K : Decls SegCfg Checker) (hK : K.Distinct) :
    Accessors.Has (AccessorHashMap K) (AccessorHashMap K) = true ∧
    Accessors.Has (AccessorHashMap K) (AccessorBTree K) = false ∧
    Accessors.Has (AccessorHashMap K) (AccessorExistence K) = false := by
  obtain ⟨-, -, hb⟩ := hK
  simp only [List.nodup_cons, List.mem_cons, List.mem_singleton, not_or, List.not_mem_nil,
    not_false_eq_true, List.nodup_nil, and_true] at hb
  obtain ⟨⟨hbh, hbe⟩, hhe⟩ := hb
  simp only [AccessorBTree, AccessorExistence, AccessorHashMap, Accessors.Has_two_pow,
    Nat.testBit_two_pow]
  simp [hbh, hhe, Ne.symm hbh]

variable [Inhabited SegCfg]

/-- Every binding of the literal `Schema` is one of the five written entries. -/
theorem Schema_cases (K : Decls SegCfg Checker) (d : Domain) (cfg : domainCfg SegCfg Checker)
    (h : Schema K d = some cfg) :
    (d = K.AccountsDomain ∧ cfg = accountsCfg K) ∨ (d = K.StorageDomain ∧ cfg = storageCfg K) ∨
    (d = K.CodeDomain ∧ cfg = codeCfg K) ∨ (d = K.CommitmentDomain ∧ cfg = commitmentCfg K) ∨
    (d = K.ReceiptDomain ∧ cfg = receiptCfg K) := by
  unfold Schema GoMap.set GoMap.empty at h
  split_ifs at h with h1 h2 h3 h4 h5 <;> simp_all

/-- With distinct keys, each key of the literal `Schema` is bound to the entry written
next to it. -/
theorem Schema_lookup (K : Decls SegCfg Checker) (hK : K.Distinct) :
    Schema K K.AccountsDomain = some (accountsCfg K) ∧
    Schema K K.StorageDomain = some (storageCfg K) ∧
    Schema K K.CodeDomain = some (codeCfg K) ∧
    Schema K K.CommitmentDomain = some (commitmentCfg K) ∧
    Schema K K.ReceiptDomain = some (receiptCfg K) := by
  obtain ⟨hd, -, -⟩ := hK
  simp only [Decls.domainKeys, List.nodup_cons, List.mem_cons, List.mem_singleton, not_or,
    List.not_mem_nil, not_false_eq_true, List.nodup_nil, and_true] at hd
  obtain ⟨⟨h12, h13, h14, h15⟩, ⟨h23, h24, h25⟩, ⟨h34, h35⟩, h45⟩ := hd
  unfold Schema GoMap.set GoMap.empty
  simp [h12, h13, h14, h15, h23, h24, h25, h34, h35, h45]

/-! ## The schema table as written -/

/-- C1: in the `Schema` table as written, each of the Accounts, Storage, Receipts and
Code domains is bound to an entry whose accessor list is exactly
`AccessorBTree | AccessorExistence`; that list has the ordered-index and the
existence-filter capability and does not have the hash-index capability. -/
theorem Schema_accessors_btree_existence (K : Decls SegCfg Checker) (hK : K.Distinct) :
    ∀ d ∈ [K.AccountsDomain, K.StorageDomain, K.ReceiptDomain, K.CodeDomain],
      ∃ cfg, Schema K d = some cfg ∧
        cfg.AccessorList = AccessorBTree K ||| AccessorExistence K ∧
        Accessors.Has cfg.AccessorList (AccessorBTree K) = true ∧
        Accessors.Has cfg.AccessorList (AccessorExistence K) = true ∧
        Accessors.Has cfg.AccessorList (AccessorHashMap K) = false := by
  obtain ⟨ha, hs, hc, -, hr⟩ := Schema_lookup K hK
  obtain ⟨hb, he, hh⟩ := Has_btree_or_existence K hK
  intro d hd
  simp only [List.mem_cons, List.mem_singleton, List.not_mem_nil, or_false] at hd
  rcases hd with rfl | rfl | rfl | rfl
  · exact ⟨_, ha, rfl, hb, he, hh⟩
  · exact ⟨_, hs, rfl, hb, he, hh⟩
  · exact ⟨_, hr, rfl, hb, he, hh⟩
  · exact ⟨_, hc, rfl, hb, he, hh⟩

/-- The statement of C1 on `exampleDecls`. -/
theorem Schema_accessors_btree_existence_witness :
    exampleDecls.Distinct ∧
    ∀ d ∈ [exampleDecls.AccountsDomain, exampleDecls.StorageDomain,
        exampleDecls.ReceiptDomain, exampleDecls.CodeDomain],
      ∃ cfg, Schema exampleDecls d = some cfg ∧
        cfg.AccessorList = AccessorBTree exampleDecls ||| AccessorExistence exampleDecls ∧
        Accessors.Has cfg.AccessorList (AccessorBTree exampleDecls) = true ∧
        Accessors.Has cfg.AccessorList (AccessorExistence exampleDecls) = true ∧
        Accessors.Has cfg.AccessorList (AccessorHashMap exampleDecls) = false :=
  ⟨by decide, Schema_accessors_btree_existence exampleDecls (by decide)⟩

/-- After the variable initialisers and `init`, the commitment key is bound to the written
entry with the accessor list that the flag decides, and every other key is bound as in the
literal. -/
theorem init_packageVars_Schema (K : Decls SegCfg Checker) (hK : K.Distinct)
    (envBool : Bool) :
    (init K (packageVars K envBool)).Schema K.CommitmentDomain =
      some { commitmentCfg K with
        AccessorList :=
          if envBool then AccessorBTree K ||| AccessorExistence K else AccessorHashMap K } ∧
    (∀ d, d ≠ K.CommitmentDomain → (init K (packageVars K envBool)).Schema d = Schema K d) := by
  obtain ⟨-, -, -, hc, -⟩ := Schema_lookup K hK
  refine ⟨?_, ?_⟩
  · cases envBool
    · simp only [init, packageVars, hc, Bool.false_eq_true, if_false]
      rfl
    · simp [init, packageVars, GoMap.get, GoMap.set, hc]
  · intro d hd
    cases envBool <;> simp [init, packageVars, GoMap.set, hd]

/-- C2: after package initialisation (the variable initialisers, then `init`), the
commitment entry of `Schema` is the written entry with its accessor list decided by the
debug flag alone: `AccessorHashMap` (hash index only) when the flag is false,
`AccessorBTree | AccessorExistence` (ordered index and existence filter) when it is true.
Every other domain is bound as in the literal, and `StandaloneIISchema` is its literal. -/
theorem init_commitment_accessors (K : Decls SegCfg Checker) (hK : K.Distinct)
    (envBool : Bool) :
    (init K (packageVars K envBool)).Schema K.CommitmentDomain =
      some { commitmentCfg K with
        AccessorList :=
          if envBool then AccessorBTree K ||| AccessorExistence K else AccessorHashMap K } ∧
    (envBool = false →
      Accessors.Has (AccessorHashMap K) (AccessorHashMap K) = true ∧
      Accessors.Has (AccessorHashMap K) (AccessorBTree K) = false ∧
      Accessors.Has (AccessorHashMap K) (AccessorExistence K) = false) ∧
    (envBool = true →
      Accessors.Has (AccessorBTree K ||| AccessorExistence K) (AccessorBTree K) = true ∧
      Accessors.Has (AccessorBTree K ||| AccessorExistence K) (AccessorExistence K) = true) ∧
    (∀ d, d ≠ K.CommitmentDomain → (init K (packageVars K envBool)).Schema d = Schema K d) ∧
    (init K (packageVars K envBool)).StandaloneIISchema = StandaloneIISchema K := by
  obtain ⟨hcm, hrest⟩ := init_packageVars_Schema K hK envBool
  obtain ⟨hb, he, -⟩ := Has_btree_or_existence K hK
  refine ⟨hcm, fun _ => Has_hashMap K hK, fun _ => ⟨hb, he⟩, hrest, ?_⟩
  cases envBool <;> simp [init, packageVars]

/-- The statement of C2 on `exampleDecls` with the debug flag set. -/
theorem init_commitment_accessors_witness :
    exampleDecls.Distinct ∧
    (init exampleDecls (packageVars exampleDecls true)).Schema exampleDecls.CommitmentDomain =
      some { commitmentCfg exampleDecls with
        AccessorList := AccessorBTree exampleDecls ||| AccessorExistence exampleDecls } :=
  ⟨by decide, (init_commitment_accessors exampleDecls (by decide) true).1⟩

/-- C4: before `EnableHistoricalCommitment` is called (in the table as written, and
after `init` whatever the debug flag), the commitment entry has `hist.historyDisabled` and
`hist.snapshotsDisabled` both true, the entries of Accounts, Storage, Code and Receipts
have both flags false, and an entry with either flag true is the commitment entry. -/
theorem commitment_history_disabled_by_default (K : Decls SegCfg Checker) (hK : K.Distinct)
    (envBool : Bool) :
    (init K (packageVars K false)).Schema = Schema K ∧
    (∃ cfg, (init K (packageVars K envBool)).Schema K.CommitmentDomain = some cfg ∧
      cfg.hist.historyDisabled = true ∧ cfg.hist.snapshotsDisabled = true) ∧
    (∀ d ∈ [K.AccountsDomain, K.StorageDomain, K.CodeDomain, K.ReceiptDomain],
      ∃ cfg, (init K (packageVars K envBool)).Schema d = some cfg ∧
        cfg.hist.historyDisabled = false ∧ cfg.hist.snapshotsDisabled = false) ∧
    (∀ d cfg, (init K (packageVars K envBool)).Schema d = some cfg →
      (cfg.hist.historyDisabled = true ∨ cfg.hist.snapshotsDisabled = true) →
      d = K.CommitmentDomain) := by
  obtain ⟨hcm, hrest⟩ := init_packageVars_Schema K hK envBool
  obtain ⟨ha, hs, hc, -, hr⟩ := Schema_lookup K hK
  have hd := hK.1
  simp only [Decls.domainKeys, List.nodup_cons, List.mem_cons, List.mem_singleton, not_or,
    List.not_mem_nil, not_false_eq_true, List.nodup_nil, and_true] at hd
  obtain ⟨⟨-, -, h14, -⟩, ⟨-, h24, -⟩, ⟨h34, -⟩, h45⟩ := hd
  refine ⟨by simp [init, packageVars], ⟨_, hcm, rfl, rfl⟩, ?_, ?_⟩
  · intro d hd
    simp only [List.mem_cons, List.mem_singleton, List.not_mem_nil, or_false] at hd
    rcases hd with rfl | rfl | rfl | rfl
    · exact ⟨_, (hrest _ h14).trans ha, rfl, rfl⟩
    · exact ⟨_, (hrest _ h24).trans hs, rfl, rfl⟩
    · exact ⟨_, (hrest _ h34).trans hc, rfl, rfl⟩
    · exact ⟨_, (hrest _ (Ne.symm h45)).trans hr, rfl, rfl⟩
  · intro d cfg hcfg hflag
    by_contra hne
    rw [hrest d hne] at hcfg
    rcases Schema_cases K d cfg hcfg with ⟨-, rfl⟩ | ⟨-, rfl⟩ | ⟨-, rfl⟩ | ⟨h, -⟩ | ⟨-, rfl⟩
    · simp [accountsCfg, histCfg.zero] at hflag
    · simp [storageCfg, histCfg.zero] at hflag
    · simp [codeCfg, histCfg.zero] at hflag
    · exact hne h
    · simp [receiptCfg, histCfg.zero] at hflag

/-- The statement of C4 on `exampleDecls` with the debug flag unset. -/
theorem commitment_history_disabled_by_default_witness :
    exampleDecls.Distinct ∧
    ∃ cfg, (init exampleDecls (packageVars exampleDecls false)).Schema
        exampleDecls.CommitmentDomain = some cfg ∧
      cfg.hist.historyDisabled = true ∧ cfg.hist.snapshotsDisabled = true :=
  ⟨by decide, (commitment_history_disabled_by_default exampleDecls (by decide) false).2.1⟩

/-- C8: in the `Schema` table as written, the Code entry has `largeValues` and
`hist.historyLargeValues` both true, the entries of Accounts, Storage, Commitment and
Receipts have both false, an entry with either flag true is the Code entry, and the Code
entry has the accessor list of the Accounts, Storage and Receipts entries. -/
theorem code_only_large_values (K : Decls SegCfg Checker) (hK : K.Distinct) :
    (∃ cfg, Schema K K.CodeDomain = some cfg ∧
      cfg.largeValues = true ∧ cfg.hist.historyLargeValues = true ∧
      ∀ d ∈ [K.AccountsDomain, K.StorageDomain, K.ReceiptDomain],
        ∃ other, Schema K d = some other ∧ other.AccessorList = cfg.AccessorList) ∧
    (∀ d ∈ [K.AccountsDomain, K.StorageDomain, K.CommitmentDomain, K.ReceiptDomain],
      ∃ cfg, Schema K d = some cfg ∧
        cfg.largeValues = false ∧ cfg.hist.historyLargeValues = false) ∧
    (∀ d cfg, Schema K d = some cfg →
      (cfg.largeValues = true ∨ cfg.hist.historyLargeValues = true) → d = K.CodeDomain) := by
  obtain ⟨ha, hs, hc, hm, hr⟩ := Schema_lookup K hK
  refine ⟨⟨_, hc, rfl, rfl, ?_⟩, ?_, ?_⟩
  · intro d hd
    simp only [List.mem_cons, List.mem_singleton, List.not_mem_nil, or_false] at hd
    rcases hd with rfl | rfl | rfl
    · exact ⟨_, ha, rfl⟩
    · exact ⟨_, hs, rfl⟩
    · exact ⟨_, hr, rfl⟩
  · intro d hd
    simp only [List.mem_cons, List.mem_singleton, List.not_mem_nil, or_false] at hd
    rcases hd with rfl | rfl | rfl | rfl
    · exact ⟨_, ha, rfl, rfl⟩
    · exact ⟨_, hs, rfl, rfl⟩
    · exact ⟨_, hm, rfl, rfl⟩
    · exact ⟨_, hr, rfl, rfl⟩
  · intro d cfg hcfg hflag
    rcases Schema_cases K d cfg hcfg with ⟨-, rfl⟩ | ⟨-, rfl⟩ | ⟨h, -⟩ | ⟨-, rfl⟩ | ⟨-, rfl⟩
    · simp [accountsCfg, histCfg.zero, domainCfg.zero] at hflag
    · simp [storageCfg, histCfg.zero, domainCfg.zero] at hflag
    · exact h
    · simp [commitmentCfg, histCfg.zero, domainCfg.zero] at hflag
    · simp [receiptCfg, histCfg.zero, domainCfg.zero] at hflag

/-- The statement of C8 on `exampleDecls`. -/
theorem code_only_large_values_witness :
    exampleDecls.Distinct ∧
    ∀ d cfg, Schema exampleDecls d = some cfg →
      (cfg.largeValues = true ∨ cfg.hist.historyLargeValues = true) →
      d = exampleDecls.CodeDomain :=
  ⟨by decide, (code_only_large_values exampleDecls (by decide)).2.2⟩

/-! ## The mutators -/

/-- The two assignments of `EnableHistoricalCommitment` on a commitment entry. -/
theorem EnableHistoricalCommitment_Schema (K : Decls SegCfg Checker)
    (g : Globals SegCfg Checker) :
    (EnableHistoricalCommitment K g).Schema =
      g.Schema.set K.CommitmentDomain
        { g.Schema.get K.CommitmentDomain domainCfg.zero with
          hist :=
            { (g.Schema.get K.CommitmentDomain domainCfg.zero).hist with
              historyDisabled := false, snapshotsDisabled := false } } := rfl

/-- C3, as stated, fails on a table without a commitment entry: on the empty table the
read of the missing key gives the zero entry and the write binds the key, so the set of
keys of `Schema` changes. -/
theorem EnableHistoricalCommitment_binds_missing_key :
    GoMap.hasKey emptySchemaVars.Schema exampleDecls.CommitmentDomain = false ∧
    GoMap.hasKey (EnableHistoricalCommitment exampleDecls emptySchemaVars).Schema
      exampleDecls.CommitmentDomain = true ∧
    ¬ (∀ d, GoMap.hasKey (EnableHistoricalCommitment exampleDecls emptySchemaVars).Schema d =
      GoMap.hasKey emptySchemaVars.Schema d) := by
  refine ⟨by decide, by decide, fun h => ?_⟩
  have h3 := h exampleDecls.CommitmentDomain
  revert h3
  decide

/-- C3, amended: for every `Schema` table that has a commitment entry, the table after
`EnableHistoricalCommitment` binds the commitment key to that entry with
`hist.historyDisabled` and `hist.snapshotsDisabled` set to false and every other field
as it was (among them `AccessorList`, `Compression` and the nested `iiCfg`); every other
key is bound as before, the set of keys is the same, and `StandaloneIISchema` and
`dbgCommBtIndex` are unchanged. -/
theorem EnableHistoricalCommitment_frame (K : Decls SegCfg Checker)
    (g : Globals SegCfg Checker) (cfg : domainCfg SegCfg Checker)
    (h : g.Schema K.CommitmentDomain = some cfg) :
    (∃ cfg2, (EnableHistoricalCommitment K g).Schema K.CommitmentDomain = some cfg2 ∧
      cfg2 = { cfg with
        hist := { cfg.hist with historyDisabled := false, snapshotsDisabled := false } } ∧
      cfg2.hist.historyDisabled = false ∧ cfg2.hist.snapshotsDisabled = false ∧
      cfg2.AccessorList = cfg.AccessorList ∧ cfg2.Compression = cfg.Compression ∧
      cfg2.hist.iiCfg = cfg.hist.iiCfg) ∧
    (∀ d, d ≠ K.CommitmentDomain → (EnableHistoricalCommitment K g).Schema d = g.Schema d) ∧
    (∀ d, GoMap.hasKey (EnableHistoricalCommitment K g).Schema d = GoMap.hasKey g.Schema d) ∧
    (EnableHistoricalCommitment K g).StandaloneIISchema = g.StandaloneIISchema ∧
    (EnableHistoricalCommitment K g).dbgCommBtIndex = g.dbgCommBtIndex := by
  refine ⟨⟨_, ?_, rfl, rfl, rfl, rfl, rfl, rfl⟩, ?_, ?_, rfl, rfl⟩
  · simp [EnableHistoricalCommitment_Schema, GoMap.set, GoMap.get, h]
  · intro d hd
    simp [EnableHistoricalCommitment_Schema, GoMap.set, hd]
  · intro d
    by_cases hd : d = K.CommitmentDomain
    · subst hd
      simp [EnableHistoricalCommitment_Schema, GoMap.set, GoMap.hasKey, h]
    · simp [EnableHistoricalCommitment_Schema, GoMap.set, GoMap.hasKey, hd]

/-- The amended statement of C3 on the literal tables of `exampleDecls`. -/
theorem EnableHistoricalCommitment_frame_witness :
    (packageVars exampleDecls false).Schema exampleDecls.CommitmentDomain =
      some (commitmentCfg exampleDecls) ∧
    ∀ d, GoMap.hasKey
        (EnableHistoricalCommitment exampleDecls (packageVars exampleDecls false)).Schema d =
      GoMap.hasKey (packageVars exampleDecls false).Schema d :=
  ⟨rfl, (EnableHistoricalCommitment_frame exampleDecls (packageVars exampleDecls false)
    (commitmentCfg exampleDecls) rfl).2.2.1⟩

/-- C9: `EnableHistoricalCommitment` is idempotent on every `Schema` table; on a table
whose commitment entry already has `hist.historyDisabled` and `hist.snapshotsDisabled`
false it changes nothing; and it commutes with `init`, whatever the debug flag. -/
theorem EnableHistoricalCommitment_idempotent (K : Decls SegCfg Checker) :
    (∀ g : Globals SegCfg Checker,
      EnableHistoricalCommitment K (EnableHistoricalCommitment K g) =
        EnableHistoricalCommitment K g) ∧
    (∀ (g : Globals SegCfg Checker) (cfg : domainCfg SegCfg Checker),
      g.Schema K.CommitmentDomain = some cfg →
      cfg.hist.historyDisabled = false → cfg.hist.snapshotsDisabled = false →
      EnableHistoricalCommitment K g = g) ∧
    (∀ g : Globals SegCfg Checker,
      init K (EnableHistoricalCommitment K g) = EnableHistoricalCommitment K (init K g)) := by
  refine ⟨?_, ?_, ?_⟩
  · intro g
    unfold EnableHistoricalCommitment
    simp only [GoMap.get, GoMap.set_apply, if_true, Option.getD_some]
    congr 1
    funext x
    by_cases hx : x = K.CommitmentDomain <;> simp [GoMap.set_apply, hx]
  · intro g cfg h h1 h2
    obtain ⟨b, sch, ii⟩ := g
    obtain ⟨hist, _, _, _, _, _, _, _, _⟩ := cfg
    obtain ⟨_, _, _, _, _, _, _, _⟩ := hist
    simp only at h h1 h2
    subst h1 h2
    unfold EnableHistoricalCommitment
    simp only [GoMap.get, h, Option.getD_some]
    congr 1
    funext x
    by_cases hx : x = K.CommitmentDomain
    · subst hx; simp [GoMap.set_apply, h]
    · simp [GoMap.set_apply, hx]
  · intro g
    obtain ⟨b, sch, ii⟩ := g
    cases b
    · simp [init, EnableHistoricalCommitment]
    · simp only [init, EnableHistoricalCommitment, GoMap.get, GoMap.set_apply, if_true,
        Option.getD_some]
      congr 1
      funext x
      by_cases hx : x = K.CommitmentDomain <;> simp [GoMap.set_apply, hx]

/-- The statement of C9 on a table whose commitment history is already enabled. -/
theorem EnableHistoricalCommitment_idempotent_witness :
    (EnableHistoricalCommitment exampleDecls (packageVars exampleDecls true)).Schema
      exampleDecls.CommitmentDomain =
      some { commitmentCfg exampleDecls with
        hist :=
          { (commitmentCfg exampleDecls).hist with
            historyDisabled := false, snapshotsDisabled := false } } ∧
    EnableHistoricalCommitment exampleDecls
        (EnableHistoricalCommitment exampleDecls (packageVars exampleDecls true)) =
      EnableHistoricalCommitment exampleDecls (packageVars exampleDecls true) :=
  ⟨rfl, (EnableHistoricalCommitment_idempotent exampleDecls).2.1
    (EnableHistoricalCommitment exampleDecls (packageVars exampleDecls true)) _ rfl rfl rfl⟩

/-! ## Well-formedness of the tables -/

/-- Every binding of the literal `StandaloneIISchema` carries its key and no compression. -/
theorem StandaloneIISchema_entry (K : Decls SegCfg Checker) (i : InvertedIdx)
    (c : iiCfg SegCfg) (h : StandaloneIISchema K i = some c) :
    c.name = i ∧ c.compression = K.CompressNone := by
  unfold StandaloneIISchema at h
  simp only [GoMap.set_apply, GoMap.empty] at h
  split_ifs at h with h1 h2 h3 h4
  all_goals (injection h with h; subst h; subst_vars; exact ⟨rfl, rfl⟩)

/-- The literal tables are well-formed and bind the commitment key. -/
theorem WellFormed_packageVars (K : Decls SegCfg Checker) (envBool : Bool) :
    WellFormed K (packageVars K envBool) ∧
    ((packageVars K envBool).Schema K.CommitmentDomain).isSome = true := by
  refine ⟨⟨?_, fun i c h => StandaloneIISchema_entry K i c h⟩, ?_⟩
  · intro d cfg h
    rcases Schema_cases K d cfg h with
      ⟨rfl, rfl⟩ | ⟨rfl, rfl⟩ | ⟨rfl, rfl⟩ | ⟨rfl, rfl⟩ | ⟨rfl, rfl⟩ <;>
    exact ⟨rfl, rfl, rfl, rfl, rfl⟩
  · simp only [packageVars, Schema, GoMap.set_apply]
    split_ifs <;> rfl

/-- A mutator keeps a well-formed table with a commitment entry well-formed, and keeps
the commitment entry. -/
theorem WellFormed_run (K : Decls SegCfg Checker) (m : Mutator) (g : Globals SegCfg Checker)
    (hg : WellFormed K g) (hc : (g.Schema K.CommitmentDomain).isSome = true) :
    WellFormed K (m.run K g) ∧ ((m.run K g).Schema K.CommitmentDomain).isSome = true := by
  obtain ⟨cfg, hcfg⟩ := Option.isSome_iff_exists.mp hc
  obtain ⟨h1, h2, h3, h4, h5⟩ := hg.1 _ _ hcfg
  cases m
  · simp only [Mutator.run, init]
    split_ifs with hb
    · refine ⟨⟨?_, hg.2⟩, by simp [GoMap.set_apply]⟩
      intro d c hd
      simp only [GoMap.set_apply, GoMap.get, hcfg, Option.getD_some] at hd
      split_ifs at hd with hdc
      · injection hd with hd
        subst hd hdc
        exact ⟨h1, h2, h3, h4, h5⟩
      · exact hg.1 d c hd
    · exact ⟨hg, hc⟩
  · simp only [Mutator.run, EnableHistoricalCommitment]
    refine ⟨⟨?_, hg.2⟩, by simp [GoMap.set_apply]⟩
    intro d c hd
    simp only [GoMap.set_apply, GoMap.get, hcfg, Option.getD_some] at hd
    split_ifs at hd with hdc
    · injection hd with hd
      subst hd hdc
      exact ⟨h1, h2, h3, h4, h5⟩
    · exact hg.1 d c hd

/-- A sequence of mutators keeps a well-formed table with a commitment entry well-formed. -/
theorem WellFormed_runMutators (K : Decls SegCfg Checker) (ms : List Mutator) :
    ∀ g : Globals SegCfg Checker, WellFormed K g →
      (g.Schema K.CommitmentDomain).isSome = true →
      WellFormed K (runMutators K ms g) ∧
      ((runMutators K ms g).Schema K.CommitmentDomain).isSome = true := by
  induction ms with
  | nil => exact fun g hg hc => ⟨hg, hc⟩
  | cons m ms ih =>
    intro g hg hc
    obtain ⟨h1, h2⟩ := WellFormed_run K m g hg hc
    exact ih (m.run K g) h1 h2

/-- C10: the tables as written are well-formed (each `Schema` entry has its key as `name`,
the string of its key as the filename base of both its history layer and its
inverted-index layer, and `hist.iiCfg.withExistence` false; each `StandaloneIISchema`
entry has its key as `name` and compression `CompressNone`), and they stay well-formed
after `init` and after `EnableHistoricalCommitment`, applied in any number and order. -/
theorem WellFormed_kept (K : Decls SegCfg Checker) (envBool : Bool) :
    WellFormed K (packageVars K envBool) ∧
    WellFormed K (init K (packageVars K envBool)) ∧
    WellFormed K (EnableHistoricalCommitment K (packageVars K envBool)) ∧
    WellFormed K (EnableHistoricalCommitment K (init K (packageVars K envBool))) ∧
    ∀ ms : List Mutator, WellFormed K (runMutators K ms (packageVars K envBool)) := by
  obtain ⟨hw, hc⟩ := WellFormed_packageVars K envBool
  have h := fun ms => (WellFormed_runMutators K ms _ hw hc).1
  exact ⟨hw, h [.init], h [.EnableHistoricalCommitment], h [.init, .EnableHistoricalCommitment], h⟩

end

/-! ## The constructor `NewAggregator` -/

section
variable {SegCfg Checker σ A Salt E : Type}

/-- The two kinds of run of `NewAggregator`. Either it returns an error: then the last
call made returned it, the calls before it returned none, and the calls made are an initial
part of the eleven fallible calls. Or it returns an aggregator: then the salt and the base
aggregator were obtained, and the trace and the final state are those of the sixteen calls
of the source. -/
theorem NewAggregator_cases (K : Decls SegCfg Checker) (c : Callees σ A Salt E) (w : σ) :
    (∃ e, (NewAggregator K c w).ret = .error e ∧
      (NewAggregator K c w).trace.getLast?.bind Event.err = some e ∧
      ((NewAggregator K c w).trace.dropLast.all fun ev => ev.err.isNone) = true ∧
      (NewAggregator K c w).trace.map Event.call <+: (plan K).take 11 ∧
      recalcUnderLock false (NewAggregator K c w).trace = true) ∨
    (∃ a salt w0 w1, (NewAggregator K c w).ret = .ok a ∧
      c.getStateIndicesSalt w = (w0, .ok salt) ∧
      c.newAggregatorOld w0 = (w1, .ok a) ∧
      (NewAggregator K c w).trace =
        [.getStateIndicesSalt none, .newAggregatorOld none] ++
        K.domainKeys.map (fun d => Event.registerDomain d salt none) ++
        K.iiKeys.map (fun i => Event.registerII i salt none) ++
        [.KeepRecentTxnsOfHistoriesWithDisabledSnapshots 100000, .Lock,
         .dirtyFilesEndTxNumMinimax
           (c.dirtyFilesEndTxNumMinimax a
             (c.KeepRecentTxnsOfHistoriesWithDisabledSnapshots a 100000
               (afterRegistrations K c a salt w1))).2,
         .recalcVisibleFiles
           (c.dirtyFilesEndTxNumMinimax a
             (c.KeepRecentTxnsOfHistoriesWithDisabledSnapshots a 100000
               (afterRegistrations K c a salt w1))).2,
         .Unlock] ∧
      (NewAggregator K c w).world =
        c.recalcVisibleFiles a
          (c.dirtyFilesEndTxNumMinimax a
             (c.KeepRecentTxnsOfHistoriesWithDisabledSnapshots a 100000
               (afterRegistrations K c a salt w1))).2
          (c.dirtyFilesEndTxNumMinimax a
             (c.KeepRecentTxnsOfHistoriesWithDisabledSnapshots a 100000
               (afterRegistrations K c a salt w1))).1 ∧
      ((NewAggregator K c w).trace.all fun ev => ev.err.isNone) = true ∧
      (NewAggregator K c w).trace.map Event.call = plan K ∧
      recalcUnderLock false (NewAggregator K c w).trace = true) := by
  generalize ho : NewAggregator K c w = o
  unfold NewAggregator at ho
  simp only [List.cons_append, List.nil_append] at ho
  repeat' (split at ho)
  all_goals subst ho
  all_goals first
    | exact Or.inl ⟨_, rfl, rfl, rfl, ⟨_, rfl⟩, rfl⟩
    | skip
  refine Or.inr ⟨_, _, _, _, rfl, ‹_›, ‹_›, ?_, ?_, rfl, rfl, rfl⟩
  · simp only [afterRegistrations, Decls.domainKeys, Decls.iiKeys, List.foldl, *]
    rfl
  · simp only [afterRegistrations, Decls.domainKeys, Decls.iiKeys, List.foldl, *]

/-- A run that returns an error: the last call made returned it, the calls before it
returned none, and the calls made are an initial part of the eleven fallible calls. -/
theorem NewAggregator_error (K : Decls SegCfg Checker) (c : Callees σ A Salt E) (w : σ)
    (e : E) (h : (NewAggregator K c w).ret = .error e) :
    (NewAggregator K c w).trace.getLast?.bind Event.err = some e ∧
    ((NewAggregator K c w).trace.dropLast.all fun ev => ev.err.isNone) = true ∧
    (NewAggregator K c w).trace.map Event.call <+: (plan K).take 11 ∧
    recalcUnderLock false (NewAggregator K c w).trace = true := by
  rcases NewAggregator_cases K c w with ⟨e2, h0, h1⟩ | ⟨a, _, _, _, h0, -⟩
  · rw [h0] at h
    injection h with h
    subst h
    exact h1
  · rw [h0] at h
    exact absurd h (by simp)

/-- A run that returns an aggregator: the salt and the base aggregator were obtained, and
the trace and the final state are those of the sixteen calls of the source. -/
theorem NewAggregator_ok (K : Decls SegCfg Checker) (c : Callees σ A Salt E) (w : σ)
    (a : A) (h : (NewAggregator K c w).ret = .ok a) :
    ∃ salt w0 w1, c.getStateIndicesSalt w = (w0, .ok salt) ∧
      c.newAggregatorOld w0 = (w1, .ok a) ∧
      (NewAggregator K c w).trace =
        [.getStateIndicesSalt none, .newAggregatorOld none] ++
        K.domainKeys.map (fun d => Event.registerDomain d salt none) ++
        K.iiKeys.map (fun i => Event.registerII i salt none) ++
        [.KeepRecentTxnsOfHistoriesWithDisabledSnapshots 100000, .Lock,
         .dirtyFilesEndTxNumMinimax
           (c.dirtyFilesEndTxNumMinimax a
             (c.KeepRecentTxnsOfHistoriesWithDisabledSnapshots a 100000
               (afterRegistrations K c a salt w1))).2,
         .recalcVisibleFiles
           (c.dirtyFilesEndTxNumMinimax a
             (c.KeepRecentTxnsOfHistoriesWithDisabledSnapshots a 100000
               (afterRegistrations K c a salt w1))).2,
         .Unlock] ∧
      (NewAggregator K c w).world =
        c.recalcVisibleFiles a
          (c.dirtyFilesEndTxNumMinimax a
             (c.KeepRecentTxnsOfHistoriesWithDisabledSnapshots a 100000
               (afterRegistrations K c a salt w1))).2
          (c.dirtyFilesEndTxNumMinimax a
             (c.KeepRecentTxnsOfHistoriesWithDisabledSnapshots a 100000
               (afterRegistrations K c a salt w1))).1 ∧
      ((NewAggregator K c w).trace.all fun ev => ev.err.isNone) = true ∧
      (NewAggregator K c w).trace.map Event.call = plan K ∧
      recalcUnderLock false (NewAggregator K c w).trace = true := by
  rcases NewAggregator_cases K c w with ⟨e2, h0, -⟩ | ⟨a2, salt, w0, w1, h0, h1⟩
  · rw [h0] at h
    exact absurd h (by simp)
  · rw [h0] at h
    injection h with h
    subst h
    exact ⟨salt, w0, w1, h1⟩

/-- The first eleven calls of the plan are the fallible ones. -/
theorem plan_take_isSetup (K : Decls SegCfg Checker) (x : Call)
    (hx : x ∈ (plan K).take 11) : x.isSetup = true := by
  simp only [plan, List.take_succ_cons, List.take_zero, List.mem_cons, List.not_mem_nil,
    or_false] at hx
  rcases hx with h | h | h | h | h | h | h | h | h | h | h <;> subst h <;> rfl

/-- When the registrations of `pre` all return nil and the next one returns an error, the
run over the whole list stops there. -/
theorem registerUntilError_stops (c : Callees σ A Salt E) (a : A) (salt : Salt)
    (r : Reg) (post : List Reg) (e : E) (w2 : σ) :
    ∀ (pre : List Reg) (w w1 : σ) (t : List (Event Salt E)),
      registerUntilError c a salt pre w = (w1, t, none) →
      r.apply c a salt w1 = (w2, some e) →
      registerUntilError c a salt (pre ++ r :: post) w =
        (w2, t ++ [r.event salt (some e)], some e) := by
  intro pre
  induction pre with
  | nil =>
    intro w w1 t h hr
    simp only [registerUntilError, Prod.mk.injEq, and_true] at h
    obtain ⟨rfl, rfl⟩ := h
    simp only [List.nil_append, registerUntilError, hr]
  | cons x xs ih =>
    intro w w1 t h hr
    rw [List.cons_append]
    rcases hx : x.apply c a salt w with ⟨wx, _ | ex⟩
    · simp only [registerUntilError, hx, Prod.mk.injEq] at h ⊢
      obtain ⟨h1, h2, h3⟩ := h
      have hxs : registerUntilError c a salt xs wx =
          (w1, (registerUntilError c a salt xs wx).2.1, none) := by
        rw [← h1, ← h3]
      rw [ih wx w1 _ hxs hr, ← h2]
      simp
    · simp [registerUntilError, hx] at h

/-- When the run over a list returns no error, every registration of the list, applied to
the state the ones before it left, returned nil. -/
theorem registerUntilError_all_nil (c : Callees σ A Salt E) (a : A) (salt : Salt)
    (r : Reg) (post : List Reg) :
    ∀ (pre : List Reg) (w : σ),
      (registerUntilError c a salt (pre ++ r :: post) w).2.2 = none →
      (registerUntilError c a salt pre w).2.2 = none ∧
      (r.apply c a salt (registerUntilError c a salt pre w).1).2 = none := by
  intro pre
  induction pre with
  | nil =>
    intro w h
    rw [List.nil_append] at h
    rcases hr : r.apply c a salt w with ⟨wr, _ | er⟩
    · simp [registerUntilError, hr]
    · simp [registerUntilError, hr] at h
  | cons x xs ih =>
    intro w h
    rw [List.cons_append] at h
    rcases hx : x.apply c a salt w with ⟨wx, _ | ex⟩
    · simp only [registerUntilError, hx] at h ⊢
      exact ih wx h
    · simp [registerUntilError, hx] at h

/-- The four kinds of run of `NewAggregator`, told by what the callees return: the salt
fails; the base aggregator fails; the registrations stop at an error; all of them return
nil. In each the whole outcome is given. -/
theorem NewAggregator_run_cases (K : Decls SegCfg Checker) (c : Callees σ A Salt E) (w : σ) :
    (∃ w0 e, c.getStateIndicesSalt w = (w0, .error e) ∧
      NewAggregator K c w = ⟨w0, [.getStateIndicesSalt (some e)], .error e⟩) ∨
    (∃ w0 salt w1 e, c.getStateIndicesSalt w = (w0, .ok salt) ∧
      c.newAggregatorOld w0 = (w1, .error e) ∧
      NewAggregator K c w =
        ⟨w1, [.getStateIndicesSalt none, .newAggregatorOld (some e)], .error e⟩) ∨
    (∃ w0 salt w1 a w2 t e, c.getStateIndicesSalt w = (w0, .ok salt) ∧
      c.newAggregatorOld w0 = (w1, .ok a) ∧
      registerUntilError c a salt (registrations K) w1 = (w2, t, some e) ∧
      NewAggregator K c w =
        ⟨w2, [.getStateIndicesSalt none, .newAggregatorOld none] ++ t, .error e⟩) ∨
    (∃ w0 salt w1 a, c.getStateIndicesSalt w = (w0, .ok salt) ∧
      c.newAggregatorOld w0 = (w1, .ok a) ∧
      registerUntilError c a salt (registrations K) w1 =
        (afterRegistrations K c a salt w1,
          (registrations K).map (Reg.event salt none), none) ∧
      NewAggregator K c w =
        ⟨c.recalcVisibleFiles a
          (c.dirtyFilesEndTxNumMinimax a
             (c.KeepRecentTxnsOfHistoriesWithDisabledSnapshots a 100000
               (afterRegistrations K c a salt w1))).2
          (c.dirtyFilesEndTxNumMinimax a
             (c.KeepRecentTxnsOfHistoriesWithDisabledSnapshots a 100000
               (afterRegistrations K c a salt w1))).1,
         [.getStateIndicesSalt none, .newAggregatorOld none] ++
          (registrations K).map (Reg.event salt none) ++
          [.KeepRecentTxnsOfHistoriesWithDisabledSnapshots 100000, .Lock,
           .dirtyFilesEndTxNumMinimax
             (c.dirtyFilesEndTxNumMinimax a
               (c.KeepRecentTxnsOfHistoriesWithDisabledSnapshots a 100000
                 (afterRegistrations K c a salt w1))).2,
           .recalcVisibleFiles
             (c.dirtyFilesEndTxNumMinimax a
               (c.KeepRecentTxnsOfHistoriesWithDisabledSnapshots a 100000
                 (afterRegistrations K c a salt w1))).2,
           .Unlock],
         .ok a⟩) := by
  generalize ho : NewAggregator K c w = o
  unfold NewAggregator at ho
  simp only [List.cons_append, List.nil_append] at ho
  repeat' (split at ho)
  all_goals subst ho
  all_goals first
    | exact Or.inl ⟨_, _, ‹_›, rfl⟩
    | exact Or.inr (Or.inl ⟨_, _, _, _, ‹_›, ‹_›, rfl⟩)
    | (refine Or.inr (Or.inr (Or.inl ⟨_, _, _, _, _, _, _, ‹_›, ‹_›, ?_, rfl⟩))
       simp only [registerUntilError, registrations, Reg.apply, Reg.event, *])
    | skip
  refine Or.inr (Or.inr (Or.inr ⟨_, _, _, _, ‹_›, ‹_›, ?_, ?_⟩))
  · simp only [registerUntilError, registrations, Reg.apply, Reg.event, afterRegistrations,
      Decls.domainKeys, Decls.iiKeys, List.foldl, List.map, *]
  · simp only [registrations, Reg.event, afterRegistrations,
      Decls.domainKeys, Decls.iiKeys, List.foldl, List.map, List.cons_append,
      List.nil_append, *]

/-- C5: `NewAggregator` fails as a whole on the first failing step, stated on what the
callees return and on the state left. If `getStateIndicesSalt` returns an error, or
`newAggregatorOld` does, or the registrations before one of the nine return nil and that
one returns an error, then `NewAggregator` returns `(nil, err)` with exactly that error,
the state it leaves is the state the failing callee left (no later callee was applied),
and the calls made end with the failing one. It returns `(a, nil)` only if the salt and
the base aggregator were obtained and each of the nine registrations, applied to the state
the ones before it left, returned nil. On the calls made: an error is returned exactly
when a call made returned it; that call is the last one, the calls before it returned nil,
they are an initial part, in source order, of the eleven fallible calls (so no setting of
the retention threshold, no `Lock`, no `recalcVisibleFiles`); a successful run made all
sixteen calls of the source and none returned an error. -/
theorem NewAggregator_fails_on_first_error (K : Decls SegCfg Checker)
    (c : Callees σ A Salt E) (w : σ) :
    (∀ w0 e, c.getStateIndicesSalt w = (w0, .error e) →
      NewAggregator K c w = ⟨w0, [.getStateIndicesSalt (some e)], .error e⟩) ∧
    (∀ w0 salt w1 e, c.getStateIndicesSalt w = (w0, .ok salt) →
      c.newAggregatorOld w0 = (w1, .error e) →
      NewAggregator K c w =
        ⟨w1, [.getStateIndicesSalt none, .newAggregatorOld (some e)], .error e⟩) ∧
    (∀ w0 salt w1 a pre r post w2 t w3 e, c.getStateIndicesSalt w = (w0, .ok salt) →
      c.newAggregatorOld w0 = (w1, .ok a) →
      registrations K = pre ++ r :: post →
      registerUntilError c a salt pre w1 = (w2, t, none) →
      r.apply c a salt w2 = (w3, some e) →
      NewAggregator K c w =
        ⟨w3, [.getStateIndicesSalt none, .newAggregatorOld none] ++ t ++
          [r.event salt (some e)], .error e⟩) ∧
    (∀ a, (NewAggregator K c w).ret = .ok a →
      ∃ w0 salt w1, c.getStateIndicesSalt w = (w0, .ok salt) ∧
        c.newAggregatorOld w0 = (w1, .ok a) ∧
        registerUntilError c a salt (registrations K) w1 =
          (afterRegistrations K c a salt w1,
            (registrations K).map (Reg.event salt none), none) ∧
        ∀ pre r post, registrations K = pre ++ r :: post →
          (r.apply c a salt (registerUntilError c a salt pre w1).1).2 = none) ∧
    (∀ e, (NewAggregator K c w).ret = .error e ↔
      ∃ ev ∈ (NewAggregator K c w).trace, ev.err = some e) ∧
    (∀ e, (NewAggregator K c w).ret = .error e →
      (NewAggregator K c w).trace.getLast?.bind Event.err = some e ∧
      (∀ ev ∈ (NewAggregator K c w).trace.dropLast, ev.err = none) ∧
      (NewAggregator K c w).trace.map Event.call <+: (plan K).take 11 ∧
      (∀ ev ∈ (NewAggregator K c w).trace, ev.call.isSetup = true)) ∧
    (∀ a, (NewAggregator K c w).ret = .ok a →
      (NewAggregator K c w).trace.map Event.call = plan K ∧
      (∀ ev ∈ (NewAggregator K c w).trace, ev.err = none)) := by
  have hsalt : ∀ w0 e, c.getStateIndicesSalt w = (w0, .error e) →
      NewAggregator K c w = ⟨w0, [.getStateIndicesSalt (some e)], .error e⟩ := by
    intro w0 e h0
    unfold NewAggregator
    simp only [h0]
  have hbase : ∀ w0 salt w1 e, c.getStateIndicesSalt w = (w0, .ok salt) →
      c.newAggregatorOld w0 = (w1, .error e) →
      NewAggregator K c w =
        ⟨w1, [.getStateIndicesSalt none, .newAggregatorOld (some e)], .error e⟩ := by
    intro w0 salt w1 e h0 h1
    unfold NewAggregator
    simp only [h0, h1, List.cons_append, List.nil_append]
  have hreg : ∀ w0 salt w1 a pre r post w2 t w3 e,
      c.getStateIndicesSalt w = (w0, .ok salt) →
      c.newAggregatorOld w0 = (w1, .ok a) →
      registrations K = pre ++ r :: post →
      registerUntilError c a salt pre w1 = (w2, t, none) →
      r.apply c a salt w2 = (w3, some e) →
      NewAggregator K c w =
        ⟨w3, [.getStateIndicesSalt none, .newAggregatorOld none] ++ t ++
          [r.event salt (some e)], .error e⟩ := by
    intro w0 salt w1 a pre r post w2 t w3 e h0 h1 hdec hpre hr
    have hru := registerUntilError_stops c a salt r post e w3 pre w1 w2 t hpre hr
    rw [← hdec] at hru
    rcases NewAggregator_run_cases K c w with
      ⟨_, _, g0, -⟩ | ⟨_, _, _, _, g0, g1, -⟩ | ⟨_, _, _, _, _, _, _, g0, g1, g2, g3⟩ |
      ⟨_, _, _, _, g0, g1, g2, -⟩
    · rw [h0] at g0
      simp at g0
    · rw [h0] at g0
      simp only [Prod.mk.injEq, Except.ok.injEq] at g0
      obtain ⟨rfl, rfl⟩ := g0
      rw [h1] at g1
      simp at g1
    · rw [h0] at g0
      simp only [Prod.mk.injEq, Except.ok.injEq] at g0
      obtain ⟨rfl, rfl⟩ := g0
      rw [h1] at g1
      simp only [Prod.mk.injEq, Except.ok.injEq] at g1
      obtain ⟨rfl, rfl⟩ := g1
      rw [hru] at g2
      simp only [Prod.mk.injEq, Option.some.injEq] at g2
      obtain ⟨rfl, rfl, rfl⟩ := g2
      rw [g3, List.append_assoc]
    · rw [h0] at g0
      simp only [Prod.mk.injEq, Except.ok.injEq] at g0
      obtain ⟨rfl, rfl⟩ := g0
      rw [h1] at g1
      simp only [Prod.mk.injEq, Except.ok.injEq] at g1
      obtain ⟨rfl, rfl⟩ := g1
      rw [hru] at g2
      simp at g2
  have hall : ∀ a, (NewAggregator K c w).ret = .ok a →
      ∃ w0 salt w1, c.getStateIndicesSalt w = (w0, .ok salt) ∧
        c.newAggregatorOld w0 = (w1, .ok a) ∧
        registerUntilError c a salt (registrations K) w1 =
          (afterRegistrations K c a salt w1,
            (registrations K).map (Reg.event salt none), none) ∧
        ∀ pre r post, registrations K = pre ++ r :: post →
          (r.apply c a salt (registerUntilError c a salt pre w1).1).2 = none := by
    intro a h
    rcases NewAggregator_run_cases K c w with
      ⟨_, _, -, g⟩ | ⟨_, _, _, _, -, -, g⟩ | ⟨_, _, _, _, _, _, _, -, -, -, g⟩ |
      ⟨w0, salt, w1, a2, g0, g1, g2, g⟩
    · rw [g] at h
      simp at h
    · rw [g] at h
      simp at h
    · rw [g] at h
      simp at h
    · rw [g] at h
      simp only [Except.ok.injEq] at h
      subst h
      refine ⟨w0, salt, w1, g0, g1, g2, ?_⟩
      intro pre r post hdec
      refine (registerUntilError_all_nil c a2 salt r post pre w1 ?_).2
      rw [← hdec, g2]
  have herr : ∀ e, (NewAggregator K c w).ret = .error e →
      (NewAggregator K c w).trace.getLast?.bind Event.err = some e ∧
      (∀ ev ∈ (NewAggregator K c w).trace.dropLast, ev.err = none) ∧
      (NewAggregator K c w).trace.map Event.call <+: (plan K).take 11 ∧
      (∀ ev ∈ (NewAggregator K c w).trace, ev.call.isSetup = true) := by
    intro e h
    obtain ⟨h1, h2, h3, -⟩ := NewAggregator_error K c w e h
    refine ⟨h1, ?_, h3, ?_⟩
    · intro ev hev
      simpa using List.all_eq_true.mp h2 ev hev
    · intro ev hev
      exact plan_take_isSetup K _ (h3.subset (List.mem_map_of_mem _ hev))
  have hok : ∀ a, (NewAggregator K c w).ret = .ok a →
      (NewAggregator K c w).trace.map Event.call = plan K ∧
      (∀ ev ∈ (NewAggregator K c w).trace, ev.err = none) := by
    intro a h
    obtain ⟨_, _, _, -, -, -, -, h1, h2, -⟩ := NewAggregator_ok K c w a h
    exact ⟨h2, fun ev hev => by simpa using List.all_eq_true.mp h1 ev hev⟩
  refine ⟨hsalt, hbase, hreg, hall, fun e => ⟨fun h => ?_, fun h => ?_⟩, herr, hok⟩
  · obtain ⟨h1, -, -, -⟩ := herr e h
    cases hl : (NewAggregator K c w).trace.getLast? with
    | none => simp [hl] at h1
    | some last =>
      rw [hl] at h1
      exact ⟨last, List.mem_of_getLast?_eq_some hl, h1⟩
  · obtain ⟨ev, hev, hee⟩ := h
    cases hr : (NewAggregator K c w).ret with
    | ok a =>
      have := (hok a hr).2 ev hev
      rw [this] at hee
      exact absurd hee (by simp)
    | error e2 =>
      obtain ⟨h1, h2, -, -⟩ := herr e2 hr
      cases hl : (NewAggregator K c w).trace.getLast? with
      | none => simp [hl] at h1
      | some last =>
        rw [hl] at h1
        have hsplit := List.dropLast_append_getLast? last hl
        rw [← hsplit] at hev
        rcases List.mem_append.mp hev with hm | hm
        · rw [h2 ev hm] at hee
          exact absurd hee (by simp)
        · have hev2 : ev = last := by simpa using hm
          subst hev2
          have h3 : ev.err = some e2 := h1
          rw [h3] at hee
          injection hee with hee
          rw [hee]

/-- The statement of C5 on a run whose registration of the commitment domain fails: the
three registrations before it return nil and leave `[0, 1, 2]`, the fourth returns the
error `3`, and `NewAggregator` returns that error and leaves `[0, 1, 2]`. -/
theorem NewAggregator_fails_on_first_error_witness :
    registrations exampleDecls =
      [.domain 0, .domain 1, .domain 2] ++ Reg.domain 3 ::
        [.domain 4, .ii 5, .ii 6, .ii 7, .ii 8] ∧
    registerUntilError (exampleCallees [3]) () 7 [.domain 0, .domain 1, .domain 2] [] =
      ([0, 1, 2],
        [.registerDomain 0 7 none, .registerDomain 1 7 none, .registerDomain 2 7 none],
        none) ∧
    (Reg.domain 3).apply (exampleCallees [3]) () 7 [0, 1, 2] = ([0, 1, 2], some 3) ∧
    NewAggregator exampleDecls (exampleCallees [3]) [] =
      ⟨[0, 1, 2],
        [.getStateIndicesSalt none, .newAggregatorOld none] ++
          [.registerDomain 0 7 none, .registerDomain 1 7 none, .registerDomain 2 7 none] ++
          [(Reg.domain 3).event 7 (some 3)],
        .error 3⟩ :=
  ⟨rfl, rfl, rfl,
    (NewAggregator_fails_on_first_error exampleDecls (exampleCallees [3]) []).2.2.1
      [] 7 [] () [.domain 0, .domain 1, .domain 2] (.domain 3)
      [.domain 4, .ii 5, .ii 6, .ii 7, .ii 8] [0, 1, 2]
      [.registerDomain 0 7 none, .registerDomain 1 7 none, .registerDomain 2 7 none]
      [0, 1, 2] 3 rfl rfl rfl rfl rfl⟩

/-- C6: on every run that returns an aggregator, `recalcVisibleFiles` is called exactly
once; the run ends with the calls `KeepRecentTxnsOfHistoriesWithDisabledSnapshots(100000)`,
`Lock`, `dirtyFilesEndTxNumMinimax`, `recalcVisibleFiles`, `Unlock` in this order, after
fallible calls only; the argument of `recalcVisibleFiles` is what
`dirtyFilesEndTxNumMinimax` returned in the state reached after the nine registrations and
after the retention threshold was set to 100000; and the state returned is the one
`recalcVisibleFiles` left. On every run, failing or not, each `recalcVisibleFiles` happens
between a `Lock` and the next `Unlock`. -/
theorem NewAggregator_recalc_once_under_lock (K : Decls SegCfg Checker)
    (c : Callees σ A Salt E) (w : σ) :
    (∀ a, (NewAggregator K c w).ret = .ok a →
      ∃ salt w0 w1 setup,
        c.getStateIndicesSalt w = (w0, .ok salt) ∧
        c.newAggregatorOld w0 = (w1, .ok a) ∧
        (∀ ev ∈ setup, ev.call.isSetup = true) ∧
        (NewAggregator K c w).trace = setup ++
          [.KeepRecentTxnsOfHistoriesWithDisabledSnapshots 100000, .Lock,
           .dirtyFilesEndTxNumMinimax
             (c.dirtyFilesEndTxNumMinimax a
               (c.KeepRecentTxnsOfHistoriesWithDisabledSnapshots a 100000
                 (afterRegistrations K c a salt w1))).2,
           .recalcVisibleFiles
             (c.dirtyFilesEndTxNumMinimax a
               (c.KeepRecentTxnsOfHistoriesWithDisabledSnapshots a 100000
                 (afterRegistrations K c a salt w1))).2,
           .Unlock] ∧
        (NewAggregator K c w).world =
          c.recalcVisibleFiles a
            (c.dirtyFilesEndTxNumMinimax a
               (c.KeepRecentTxnsOfHistoriesWithDisabledSnapshots a 100000
                 (afterRegistrations K c a salt w1))).2
            (c.dirtyFilesEndTxNumMinimax a
               (c.KeepRecentTxnsOfHistoriesWithDisabledSnapshots a 100000
                 (afterRegistrations K c a salt w1))).1 ∧
        ((NewAggregator K c w).trace.map Event.call).count .recalcVisibleFiles = 1) ∧
    recalcUnderLock false (NewAggregator K c w).trace = true := by
  constructor
  · intro a h
    obtain ⟨salt, w0, w1, h1, h2, h3, h4, -, h6, -⟩ := NewAggregator_ok K c w a h
    refine ⟨salt, w0, w1, _, h1, h2, ?_, h3, h4, ?_⟩
    · intro ev hev
      simp only [Decls.domainKeys, Decls.iiKeys, List.map, List.cons_append, List.nil_append,
        List.mem_cons, List.not_mem_nil, or_false] at hev
      rcases hev with h | h | h | h | h | h | h | h | h | h | h <;> subst h <;> rfl
    · rw [h6]
      simp [plan]
  · rcases NewAggregator_cases K c w with ⟨_, _, _, _, _, h⟩ | ⟨_, _, _, _, _, _, _, _, _, _, _, h⟩
    · exact h
    · exact h

/-- The statement of C6 on a run in which every call succeeds. -/
theorem NewAggregator_recalc_once_under_lock_witness :
    (NewAggregator exampleDecls (exampleCallees []) []).ret = .ok () ∧
    ((NewAggregator exampleDecls (exampleCallees []) []).trace.map Event.call).count
      .recalcVisibleFiles = 1 ∧
    (NewAggregator exampleDecls (exampleCallees []) []).world =
      [9, 0, 1, 2, 3, 4, 5, 6, 7, 8] :=
  ⟨rfl,
    (by
      obtain ⟨_, _, _, _, -, -, -, -, -, h⟩ :=
        (NewAggregator_recalc_once_under_lock exampleDecls (exampleCallees []) []).1 () rfl
      exact h),
    rfl⟩

variable [Inhabited SegCfg]

/-- The keys of the literal `Schema` are the five domain constants. -/
theorem Schema_hasKey (K : Decls SegCfg Checker) (d : Domain) :
    GoMap.hasKey (Schema K) d = true ↔ d ∈ K.domainKeys := by
  simp only [GoMap.hasKey, Schema, GoMap.set_apply, GoMap.empty, Decls.domainKeys,
    List.mem_cons, List.not_mem_nil, or_false]
  split_ifs <;> simp [*]

/-- The keys of the literal `StandaloneIISchema` are the four index constants. -/
theorem StandaloneIISchema_hasKey (K : Decls SegCfg Checker) (i : InvertedIdx) :
    GoMap.hasKey (StandaloneIISchema K) i = true ↔ i ∈ K.iiKeys := by
  simp only [GoMap.hasKey, StandaloneIISchema, GoMap.set_apply, GoMap.empty, Decls.iiKeys,
    List.mem_cons, List.not_mem_nil, or_false]
  split_ifs <;> simp [*]

/-- C7: on a run that returns an aggregator, the nine registration callees are applied,
each to the state the one before left and each returning nil, in this order:
`registerDomain` for Accounts, Storage, Code, Commitment, Receipt and then `registerII`
for LogAddr, LogTopic, TracesFrom, TracesTo, each with the salt that
`getStateIndicesSalt` returned at the start; the state returned is the one reached from
the state these nine applications left. The registration calls of the trace are these
nine, in this order. The domains registered are the keys of `Schema`, each once, and the
indices registered are the keys of `StandaloneIISchema`, each once. -/
theorem NewAggregator_registers_schema (K : Decls SegCfg Checker) (hK : K.Distinct)
    (c : Callees σ A Salt E) (w : σ) (a : A) (h : (NewAggregator K c w).ret = .ok a) :
    ∃ salt w0 w1, c.getStateIndicesSalt w = (w0, .ok salt) ∧
      c.newAggregatorOld w0 = (w1, .ok a) ∧
      registrations K =
        [K.AccountsDomain, K.StorageDomain, K.CodeDomain, K.CommitmentDomain,
          K.ReceiptDomain].map Reg.domain ++
        [K.LogAddrIdx, K.LogTopicIdx, K.TracesFromIdx, K.TracesToIdx].map Reg.ii ∧
      registerUntilError c a salt (registrations K) w1 =
        (afterRegistrations K c a salt w1,
          (registrations K).map (Reg.event salt none), none) ∧
      afterRegistrations K c a salt w1 =
        [K.LogAddrIdx, K.LogTopicIdx, K.TracesFromIdx, K.TracesToIdx].foldl
          (fun w i => (c.registerII a i salt w).1)
          ([K.AccountsDomain, K.StorageDomain, K.CodeDomain, K.CommitmentDomain,
            K.ReceiptDomain].foldl (fun w d => (c.registerDomain a d salt w).1) w1) ∧
      (NewAggregator K c w).world =
        c.recalcVisibleFiles a
          (c.dirtyFilesEndTxNumMinimax a
             (c.KeepRecentTxnsOfHistoriesWithDisabledSnapshots a 100000
               (afterRegistrations K c a salt w1))).2
          (c.dirtyFilesEndTxNumMinimax a
             (c.KeepRecentTxnsOfHistoriesWithDisabledSnapshots a 100000
               (afterRegistrations K c a salt w1))).1 ∧
      (NewAggregator K c w).trace.filter (fun ev => ev.call.isRegistration) =
        [K.AccountsDomain, K.StorageDomain, K.CodeDomain, K.CommitmentDomain,
          K.ReceiptDomain].map (fun d => Event.registerDomain d salt none) ++
        [K.LogAddrIdx, K.LogTopicIdx, K.TracesFromIdx, K.TracesToIdx].map
          (fun i => Event.registerII i salt none) ∧
      [K.AccountsDomain, K.StorageDomain, K.CodeDomain, K.CommitmentDomain,
        K.ReceiptDomain].Nodup ∧
      (∀ d, GoMap.hasKey (Schema K) d = true ↔
        d ∈ [K.AccountsDomain, K.StorageDomain, K.CodeDomain, K.CommitmentDomain,
          K.ReceiptDomain]) ∧
      [K.LogAddrIdx, K.LogTopicIdx, K.TracesFromIdx, K.TracesToIdx].Nodup ∧
      (∀ i, GoMap.hasKey (StandaloneIISchema K) i = true ↔
        i ∈ [K.LogAddrIdx, K.LogTopicIdx, K.TracesFromIdx, K.TracesToIdx]) := by
  rcases NewAggregator_run_cases K c w with
    ⟨_, _, -, g⟩ | ⟨_, _, _, _, -, -, g⟩ | ⟨_, _, _, _, _, _, _, -, -, -, g⟩ |
    ⟨w0, salt, w1, a2, g0, g1, g2, g⟩
  · rw [g] at h
    simp at h
  · rw [g] at h
    simp at h
  · rw [g] at h
    simp at h
  · rw [g] at h
    simp only [Except.ok.injEq] at h
    subst h
    refine ⟨salt, w0, w1, g0, g1, rfl, g2, rfl, ?_, ?_, hK.1, Schema_hasKey K, hK.2.1,
      StandaloneIISchema_hasKey K⟩
    · rw [g]
    · rw [g]
      simp [registrations, Reg.event, List.filter, Event.call, Call.isRegistration]

/-- The statement of C7 on a run in which every call succeeds: the nine registrations
leave `[0, 1, 2, 3, 4, 5, 6, 7, 8]` and the state returned is `recalcVisibleFiles` of it. -/
theorem NewAggregator_registers_schema_witness :
    exampleDecls.Distinct ∧
    (NewAggregator exampleDecls (exampleCallees []) []).ret = .ok () ∧
    afterRegistrations exampleDecls (exampleCallees []) () 7 [] =
      [0, 1, 2, 3, 4, 5, 6, 7, 8] ∧
    (NewAggregator exampleDecls (exampleCallees []) []).world =
      [9, 0, 1, 2, 3, 4, 5, 6, 7, 8] ∧
    ∃ salt w0 w1, (exampleCallees []).getStateIndicesSalt [] = (w0, .ok salt) ∧
      (exampleCallees []).newAggregatorOld w0 = (w1, .ok ()) ∧
      registerUntilError (exampleCallees []) () salt (registrations exampleDecls) w1 =
        (afterRegistrations exampleDecls (exampleCallees []) () salt w1,
          (registrations exampleDecls).map (Reg.event salt none), none) ∧
      (NewAggregator exampleDecls (exampleCallees []) []).trace.filter
          (fun ev => ev.call.isRegistration) =
        [exampleDecls.AccountsDomain, exampleDecls.StorageDomain, exampleDecls.CodeDomain,
          exampleDecls.CommitmentDomain, exampleDecls.ReceiptDomain].map
          (fun d => Event.registerDomain d salt none) ++
        [exampleDecls.LogAddrIdx, exampleDecls.LogTopicIdx, exampleDecls.TracesFromIdx,
          exampleDecls.TracesToIdx].map (fun i => Event.registerII i salt none) :=
  ⟨by decide, rfl, rfl, rfl, by
    obtain ⟨salt, w0, w1, h1, h2, -, h3, -, -, h4, -⟩ :=
      NewAggregator_registers_schema exampleDecls (by decide) (exampleCallees []) [] () rfl
    exact ⟨salt, w0, w1, h1, h2, h3, h4⟩⟩

end

end state
